import Mathlib

/-!
Verification of the scalar utility functions of the `maths` header library.

The repository ships two copies of the scalar utilities, `src/util.h` and a
second header (`src/unnamed/part_000`).  For every function treated here the
two copies are textually identical, except for `smooth_stop5`, whose two
variants are embedded separately in the namespaces `UtilH` and `Part000`.

C++ machine integers are modelled as `Nat` with explicit `% 2^w` at the
points where wrap-around can occur; generic numeric template parameters are
modelled by a `LinearOrder` (for purely order-theoretic functions) or by a
`LinearOrderedField` (for the floating-point interpolation and easing
functions).
-/

/-- Embeds `clamp` (identical in `src/util.h` lines 259-268 and
`src/unnamed/part_000` lines 279-288):
`if (a < lower) return lower; else if (a > upper) return upper; else return a;` -/
def clamp {α : Type} [LinearOrder α] (a lower upper : α) : α :=
  if a < lower then lower
  else if a > upper then upper
  else a

/-- Embeds `update_minmax` (identical in `src/util.h` lines 200-207 and
`src/unnamed/part_000` lines 220-227).  The C++ function mutates the
reference arguments `amin`, `amax`; the embedding returns the updated pair:
`if (a1 < amin) amin = a1; else if (a1 > amax) amax = a1;` -/
def update_minmax {α : Type} [LinearOrder α] (a1 amin amax : α) : α × α :=
  if a1 < amin then (a1, amax)
  else if a1 > amax then (amin, a1)
  else (amin, amax)

/-- Embeds `lerp` (identical in `src/util.h` lines 376-380 and
`src/unnamed/part_000` lines 446-450):
`return (1 - f) * value0 + f * value1;`  The two template parameters `S`
(value) and `T` (parameter) are instantiated at one common field. -/
def lerp {α : Type} [Field α] (value0 value1 f : α) : α :=
  (1 - f) * value0 + f * value1

/-- Embeds the uniform `catmul_rom_spline` overload (identical in
`src/util.h` lines 439-446 and `src/unnamed/part_000` lines 509-516). -/
def catmul_rom_spline {α : Type} [Field α] (t p0 p1 p2 p3 : α) : α :=
  (1/2) * ((2 * p1) +
    (p2 - p0) * t +
    (2 * p0 - 5 * p1 + 4 * p2 - p3) * (t * t) +
    ((-1) * p0 + 3 * p1 - 3 * p2 + p3) * (t * t * t))

/-- Embeds the one-argument `smooth_step` (identical in `src/util.h`
lines 271-279 and `src/unnamed/part_000` lines 291-299):
`if (r < 0) return 0; else if (r > 1) return 1;
 return r * r * r * (10 + r * (-15 + r * 6));` -/
def smooth_step {α : Type} [LinearOrderedField α] (r : α) : α :=
  if r < 0 then 0
  else if r > 1 then 1
  else r * r * r * (10 + r * (-15 + r * 6))

namespace UtilH

/-- Embeds `smooth_stop5` from `src/util.h` lines 533-538:
`t = t / d - 1; return -c * (t*t*t*t*t + 1) + b;` -/
def smooth_stop5 (t b c d : ℚ) : ℚ :=
  let u := t / d - 1;
  -c * (u * u * u * u * u + 1) + b

end UtilH

namespace Part000

/-- Embeds `smooth_stop5` from `src/unnamed/part_000` lines 642-647:
`t = t / d - 1; return c * (t*t*t*t*t + (T)1) + b;` -/
def smooth_stop5 (t b c d : ℚ) : ℚ :=
  let u := t / d - 1
  c * (u * u * u * u * u + 1) + b

end Part000

/-- C6: for `lower ≤ upper`, `clamp a lower upper` lies in the closed
interval `[lower, upper]`; it is `a` itself whenever `lower ≤ a ≤ upper`,
and otherwise it is the violated (nearest) bound. -/
theorem clamp_spec {α : Type} [LinearOrder α] (a lower upper : α)
    (h : lower ≤ upper) :
    (lower ≤ clamp a lower upper ∧ clamp a lower upper ≤ upper) ∧
    (lower ≤ a → a ≤ upper → clamp a lower upper = a) ∧
    (a < lower → clamp a lower upper = lower) ∧
    (upper < a → clamp a lower upper = upper) := by
  unfold clamp
  split_ifs with h1 h2
  · exact ⟨⟨le_refl _, h⟩,
      fun hla _ => absurd h1 (not_lt_of_le hla),
      fun _ => rfl,
      fun hu => absurd (lt_trans hu h1) (not_lt_of_le h)⟩
  · exact ⟨⟨h, le_refl _⟩,
      fun _ hau => absurd h2 (not_lt_of_le hau),
      fun hl => absurd hl h1,
      fun _ => rfl⟩
  · exact ⟨⟨le_of_not_lt h1, le_of_not_lt h2⟩,
      fun _ _ => rfl,
      fun hl => absurd hl h1,
      fun hu => absurd hu h2⟩

/-- Witness for `clamp_spec` at a concrete input. -/
theorem clamp_spec_witness :
    ((0:ℤ) ≤ clamp 5 0 3 ∧ clamp (5:ℤ) 0 3 ≤ 3) ∧
    ((0:ℤ) ≤ 5 → (5:ℤ) ≤ 3 → clamp (5:ℤ) 0 3 = 5) ∧
    ((5:ℤ) < 0 → clamp (5:ℤ) 0 3 = 0) ∧
    ((3:ℤ) < 5 → clamp (5:ℤ) 0 3 = 3) :=
  clamp_spec (5:ℤ) 0 3 (by decide)

/-- C7: starting from a pair with `amin ≤ amax`, `update_minmax` only moves
the bounds outward, and the resulting pair contains the new value. -/
theorem update_minmax_spec {α : Type} [LinearOrder α] (a1 amin amax : α)
    (h : amin ≤ amax) :
    (update_minmax a1 amin amax).1 ≤ amin ∧
    amax ≤ (update_minmax a1 amin amax).2 ∧
    (update_minmax a1 amin amax).1 ≤ a1 ∧
    a1 ≤ (update_minmax a1 amin amax).2 := by
  unfold update_minmax
  split_ifs with h1 h2
  · exact ⟨le_of_lt h1, le_refl _, le_refl _, le_of_lt (lt_of_lt_of_le h1 h)⟩
  · exact ⟨le_refl _, le_of_lt h2, le_of_not_lt h1, le_refl _⟩
  · exact ⟨le_refl _, le_refl _, le_of_not_lt h1, le_of_not_lt h2⟩

/-- Witness for `update_minmax_spec` at a concrete input. -/
theorem update_minmax_spec_witness :
    (update_minmax (7:ℤ) 0 3).1 ≤ 0 ∧
    (3:ℤ) ≤ (update_minmax (7:ℤ) 0 3).2 ∧
    (update_minmax (7:ℤ) 0 3).1 ≤ 7 ∧
    (7:ℤ) ≤ (update_minmax (7:ℤ) 0 3).2 :=
  update_minmax_spec (7:ℤ) 0 3 (by decide)

/-- C10: `lerp` returns its endpoints exactly at the endpoint parameters. -/
theorem lerp_endpoints (a b : ℚ) : lerp a b 0 = a ∧ lerp a b 1 = b := by
  unfold lerp
  constructor <;> ring

/-- C9: the uniform Catmull-Rom spline interpolates its two middle control
points: it returns `p1` at `t = 0` and `p2` at `t = 1`. -/
theorem catmul_rom_spline_endpoints (p0 p1 p2 p3 : ℚ) :
    catmul_rom_spline 0 p0 p1 p2 p3 = p1 ∧
    catmul_rom_spline 1 p0 p1 p2 p3 = p2 := by
  unfold catmul_rom_spline
  constructor <;> ring

/-- C5 counterexample: the two copies of `smooth_stop5` disagree at the
concrete input `t = 1, b = 0, c = 1, d = 1` (whose duration `d = 1` is
nonzero): the `src/util.h` copy returns `-1` while the
`src/unnamed/part_000` copy returns `1`. -/
theorem smooth_stop5_copies_differ :
    (1:ℚ) ≠ 0 ∧
    UtilH.smooth_stop5 1 0 1 1 = -1 ∧
    Part000.smooth_stop5 1 0 1 1 = 1 ∧
    UtilH.smooth_stop5 1 0 1 1 ≠ Part000.smooth_stop5 1 0 1 1 := by
  refine ⟨by norm_num, ?_, ?_, ?_⟩ <;> norm_num [UtilH.smooth_stop5, Part000.smooth_stop5]

/-- C5 (amended): the two copies of `smooth_stop5` differ exactly by the
sign of the scale argument: for every `t`, `b`, `c` and `d ≠ 0`, the
`src/util.h` copy at scale `c` equals the `src/unnamed/part_000` copy at
scale `-c`. -/
theorem smooth_stop5_copies_sign_flip (t b c d : ℚ) (hd : d ≠ 0) :
    UtilH.smooth_stop5 t b c d = Part000.smooth_stop5 t b (-c) d := by
  unfold UtilH.smooth_stop5 Part000.smooth_stop5
  ring

/-- Witness for `smooth_stop5_copies_sign_flip` at a concrete input. -/
theorem smooth_stop5_copies_sign_flip_witness :
    (2:ℚ) ≠ 0 ∧ UtilH.smooth_stop5 1 3 5 2 = Part000.smooth_stop5 1 3 (-5) 2 :=
  ⟨by norm_num, smooth_stop5_copies_sign_flip 1 3 5 2 (by norm_num)⟩

/-- Embeds the 3-argument `min` (identical in both headers):
`return min(a1, min(a2, a3));` -/
def min3 {α : Type} [LinearOrder α] (a1 a2 a3 : α) : α :=
  min a1 (min a2 a3)

/-- Embeds the 4-argument `min`: `return min(min(a1, a2), min(a3, a4));` -/
def min4 {α : Type} [LinearOrder α] (a1 a2 a3 a4 : α) : α :=
  min (min a1 a2) (min a3 a4)

/-- Embeds the 5-argument `min`: `return min(min(a1, a2), min(a3, a4), a5);` -/
def min5 {α : Type} [LinearOrder α] (a1 a2 a3 a4 a5 : α) : α :=
  min3 (min a1 a2) (min a3 a4) a5

/-- Embeds the 6-argument `min`:
`return min(min(a1, a2), min(a3, a4), min(a5, a6));` -/
def min6 {α : Type} [LinearOrder α] (a1 a2 a3 a4 a5 a6 : α) : α :=
  min3 (min a1 a2) (min a3 a4) (min a5 a6)

/-- Embeds the 3-argument `max`: `return max(a1, max(a2, a3));` -/
def max3 {α : Type} [LinearOrder α] (a1 a2 a3 : α) : α :=
  max a1 (max a2 a3)

/-- Embeds the 4-argument `max`: `return max(max(a1, a2), max(a3, a4));` -/
def max4 {α : Type} [LinearOrder α] (a1 a2 a3 a4 : α) : α :=
  max (max a1 a2) (max a3 a4)

/-- Embeds the 5-argument `max`: `return max(max(a1, a2), max(a3, a4), a5);` -/
def max5 {α : Type} [LinearOrder α] (a1 a2 a3 a4 a5 : α) : α :=
  max3 (max a1 a2) (max a3 a4) a5

/-- Embeds the 6-argument `max`:
`return max(max(a1, a2), max(a3, a4), max(a5, a6));` -/
def max6 {α : Type} [LinearOrder α] (a1 a2 a3 a4 a5 a6 : α) : α :=
  max3 (max a1 a2) (max a3 a4) (max a5 a6)

/-- Embeds the 2-argument `minmax` (both headers); the C++ function writes
through the reference arguments, the embedding returns the `(amin, amax)`
pair. -/
def minmax2 {α : Type} [LinearOrder α] (a1 a2 : α) : α × α :=
  if a1 < a2 then (a1, a2) else (a2, a1)

/-- Embeds the 3-argument `minmax` with its nested comparison tree
(including the redundant re-test of `a1 < a2` in the second branch). -/
def minmax3 {α : Type} [LinearOrder α] (a1 a2 a3 : α) : α × α :=
  if a1 < a2 then
    (if a1 < a3 then
      (a1, if a2 < a3 then a3 else a2)
    else
      (a3, if a1 < a2 then a2 else a1))
  else
    (if a2 < a3 then
      (a2, if a1 < a3 then a3 else a1)
    else
      (a3, a1))

/-- Embeds the 4-argument `minmax` with its nested comparison tree over the
two-argument `min`/`max`. -/
def minmax4 {α : Type} [LinearOrder α] (a1 a2 a3 a4 : α) : α × α :=
  if a1 < a2 then
    (if a3 < a4 then (min a1 a3, max a2 a4) else (min a1 a4, max a2 a3))
  else
    (if a3 < a4 then (min a2 a3, max a1 a4) else (min a2 a4, max a1 a3))

/-- Embeds the 5-argument `minmax`, which delegates to the n-ary `min`/`max`:
`amin = min(a1, a2, a3, a4, a5); amax = max(a1, a2, a3, a4, a5);` -/
def minmax5 {α : Type} [LinearOrder α] (a1 a2 a3 a4 a5 : α) : α × α :=
  (min5 a1 a2 a3 a4 a5, max5 a1 a2 a3 a4 a5)

/-- Embeds the 6-argument `minmax`, which delegates to the n-ary `min`/`max`. -/
def minmax6 {α : Type} [LinearOrder α] (a1 a2 a3 a4 a5 a6 : α) : α × α :=
  (min6 a1 a2 a3 a4 a5 a6, max6 a1 a2 a3 a4 a5 a6)

lemma minmax2_eq {α : Type} [LinearOrder α] (a1 a2 : α) :
    minmax2 a1 a2 = (min a1 a2, max a1 a2) := by
  unfold minmax2
  split_ifs with h
  · rw [min_eq_left h.le, max_eq_right h.le]
  · rw [min_eq_right (le_of_not_lt h), max_eq_left (le_of_not_lt h)]

lemma minmax3_eq {α : Type} [LinearOrder α] (a1 a2 a3 : α) :
    minmax3 a1 a2 a3 = (min a1 (min a2 a3), max a1 (max a2 a3)) := by
  unfold minmax3
  split_ifs with h1 h2 h3 h4 h5
  · rw [min_eq_left h3.le, min_eq_left h1.le, max_eq_right h3.le, max_eq_right h2.le]
  · rw [min_eq_right (le_of_not_lt h3), min_eq_left h2.le,
      max_eq_left (le_of_not_lt h3), max_eq_right h1.le]
  · rw [min_eq_right ((le_of_not_lt h2).trans h1.le), min_eq_right (le_of_not_lt h2),
      max_eq_left ((le_of_not_lt h2).trans h1.le), max_eq_right h1.le]
  · rw [min_eq_left h4.le, min_eq_right (le_of_not_lt h1),
      max_eq_right h4.le, max_eq_right h5.le]
  · rw [min_eq_left h4.le, min_eq_right (le_of_not_lt h1),
      max_eq_right h4.le, max_eq_left (le_of_not_lt h5)]
  · rw [min_eq_right (le_of_not_lt h4), min_eq_right ((le_of_not_lt h4).trans (le_of_not_lt h1)),
      max_eq_left (le_of_not_lt h4), max_eq_left (le_of_not_lt h1)]

lemma minmax4_eq {α : Type} [LinearOrder α] (a1 a2 a3 a4 : α) :
    minmax4 a1 a2 a3 a4 = (min a1 (min a2 (min a3 a4)), max a1 (max a2 (max a3 a4))) := by
  unfold minmax4
  split_ifs with h1 h2 h3
  · rw [min_eq_left h2.le, ← min_assoc, min_eq_left h1.le,
      max_eq_right h2.le, ← max_assoc, max_eq_right h1.le]
  · rw [min_eq_right (le_of_not_lt h2), ← min_assoc, min_eq_left h1.le,
      max_eq_left (le_of_not_lt h2), ← max_assoc, max_eq_right h1.le]
  · rw [min_eq_left h3.le, ← min_assoc, min_eq_right (le_of_not_lt h1),
      max_eq_right h3.le, ← max_assoc, max_eq_left (le_of_not_lt h1)]
  · rw [min_eq_right (le_of_not_lt h3), ← min_assoc, min_eq_right (le_of_not_lt h1),
      max_eq_left (le_of_not_lt h3), ← max_assoc, max_eq_left (le_of_not_lt h1)]

lemma minmax5_eq {α : Type} [LinearOrder α] (a1 a2 a3 a4 a5 : α) :
    minmax5 a1 a2 a3 a4 a5 =
      (min a1 (min a2 (min a3 (min a4 a5))), max a1 (max a2 (max a3 (max a4 a5)))) := by
  unfold minmax5 min5 max5 min3 max3
  rw [Prod.mk.injEq]
  constructor
  · simp [min_assoc]
  · simp [max_assoc]

lemma minmax6_eq {α : Type} [LinearOrder α] (a1 a2 a3 a4 a5 a6 : α) :
    minmax6 a1 a2 a3 a4 a5 a6 =
      (min a1 (min a2 (min a3 (min a4 (min a5 a6)))),
       max a1 (max a2 (max a3 (max a4 (max a5 a6))))) := by
  unfold minmax6 min6 max6 min3 max3
  rw [Prod.mk.injEq]
  constructor
  · simp [min_assoc]
  · simp [max_assoc]

/-- C3: every `minmax` overload (arities 2 through 6) returns the pair
(minimum, maximum) of its arguments; in particular the nested-comparison
overloads (2-4 arguments) and the overloads delegating to the n-ary
`min`/`max` (5-6 arguments) satisfy the same postcondition. -/
theorem minmax_family_spec {α : Type} [LinearOrder α] (a1 a2 a3 a4 a5 a6 : α) :
    minmax2 a1 a2 = (min a1 a2, max a1 a2) ∧
    minmax3 a1 a2 a3 = (min a1 (min a2 a3), max a1 (max a2 a3)) ∧
    minmax4 a1 a2 a3 a4 = (min a1 (min a2 (min a3 a4)), max a1 (max a2 (max a3 a4))) ∧
    minmax5 a1 a2 a3 a4 a5 =
      (min a1 (min a2 (min a3 (min a4 a5))), max a1 (max a2 (max a3 (max a4 a5)))) ∧
    minmax6 a1 a2 a3 a4 a5 a6 =
      (min a1 (min a2 (min a3 (min a4 (min a5 a6)))),
       max a1 (max a2 (max a3 (max a4 (max a5 a6))))) :=
  ⟨minmax2_eq a1 a2, minmax3_eq a1 a2 a3, minmax4_eq a1 a2 a3 a4,
   minmax5_eq a1 a2 a3 a4 a5, minmax6_eq a1 a2 a3 a4 a5 a6⟩

lemma smooth_step_in_range {α : Type} [LinearOrderedField α] (r : α)
    (h0 : 0 ≤ r) (h1 : r ≤ 1) :
    smooth_step r = r * r * r * (10 + r * (-15 + r * 6)) := by
  unfold smooth_step
  rw [if_neg (not_lt_of_le h0), if_neg (not_lt_of_le h1)]

/-- C2: `smooth_step` is monotone non-decreasing on `[0, 1]`, takes the
exact values `0` at `0` and `1` at `1`, is clamped to `0` below `0` and to
`1` above `1`, and on `[0, 1]` equals the quintic `10 r^3 - 15 r^4 + 6 r^5`. -/
theorem smooth_step_spec {α : Type} [LinearOrderedField α] :
    (∀ a b : α, 0 ≤ a → a ≤ b → b ≤ 1 → smooth_step a ≤ smooth_step b) ∧
    smooth_step (0 : α) = 0 ∧
    smooth_step (1 : α) = 1 ∧
    (∀ r : α, r < 0 → smooth_step r = 0) ∧
    (∀ r : α, 1 < r → smooth_step r = 1) ∧
    (∀ r : α, 0 ≤ r → r ≤ 1 → smooth_step r = 10 * r^3 - 15 * r^4 + 6 * r^5) := by
  refine ⟨?_, ?_, ?_, ?_, ?_, ?_⟩
  · intro a b ha hab hb
    rw [smooth_step_in_range a ha (hab.trans hb), smooth_step_in_range b (ha.trans hab) hb]
    have hba : 0 ≤ b - a := sub_nonneg.2 hab
    have ha1 : 0 ≤ 1 - a := sub_nonneg.2 (hab.trans hb)
    have hb1 : 0 ≤ 1 - b := sub_nonneg.2 hb
    have hb0 : 0 ≤ b := ha.trans hab
    have key : b * b * b * (10 + b * (-15 + b * 6)) - a * a * a * (10 + a * (-15 + a * 6)) =
        (b - a) * (10 * (a * (1 - a))^2 + 10 * (a * b) * ((1 - a) * (1 - b)) +
          10 * (b * (1 - b))^2 +
          (a - b)^2 * (4 * (a * (1 - a)) + 4 * (b * (1 - b)) + a * (1 - b) + b * (1 - a))) := by
      ring
    have hQ : 0 ≤ (b - a) * (10 * (a * (1 - a))^2 + 10 * (a * b) * ((1 - a) * (1 - b)) +
        10 * (b * (1 - b))^2 +
        (a - b)^2 * (4 * (a * (1 - a)) + 4 * (b * (1 - b)) + a * (1 - b) + b * (1 - a))) := by
      apply mul_nonneg hba
      have t1 : 0 ≤ 10 * (a * (1 - a))^2 := by positivity
      have t2 : 0 ≤ 10 * (a * b) * ((1 - a) * (1 - b)) :=
        mul_nonneg (mul_nonneg (by norm_num) (mul_nonneg ha hb0)) (mul_nonneg ha1 hb1)
      have t3 : 0 ≤ 10 * (b * (1 - b))^2 := by positivity
      have t4 : 0 ≤ (a - b)^2 *
          (4 * (a * (1 - a)) + 4 * (b * (1 - b)) + a * (1 - b) + b * (1 - a)) := by
        apply mul_nonneg (sq_nonneg _)
        have u1 := mul_nonneg ha ha1
        have u2 := mul_nonneg hb0 hb1
        have u3 := mul_nonneg ha hb1
        have u4 := mul_nonneg hb0 ha1
        linarith
      linarith
    linarith
  · rw [smooth_step_in_range (0 : α) le_rfl zero_le_one]; ring
  · rw [smooth_step_in_range (1 : α) zero_le_one le_rfl]; ring
  · intro r hr
    unfold smooth_step
    rw [if_pos hr]
  · intro r hr
    unfold smooth_step
    rw [if_neg (not_lt_of_le (zero_le_one.trans hr.le)), if_pos hr]
  · intro r h0 h1
    rw [smooth_step_in_range r h0 h1]
    ring

/-- Witness for `smooth_step_spec` at the rationals: monotonicity applied
at the concrete pair `(1/4, 1/2)`. -/
theorem smooth_step_spec_witness :
    (0 : ℚ) ≤ 1/4 ∧ (1/4 : ℚ) ≤ 1/2 ∧ (1/2 : ℚ) ≤ 1 ∧
    smooth_step (1/4 : ℚ) ≤ smooth_step (1/2 : ℚ) :=
  ⟨by norm_num, by norm_num, by norm_num,
   (smooth_step_spec (α := ℚ)).1 (1/4) (1/2) (by norm_num) (by norm_num) (by norm_num)⟩

/-- The loop of `round_up_to_power_of_two`: counts how many times
`n >>= 1` (integer halving) runs until `n` becomes `0`; this is the value
accumulated in `exponent`. -/
def up_loop (n : Nat) : Nat :=
  if h : n = 0 then 0
  else up_loop (n / 2) + 1
decreasing_by exact Nat.div_lt_self (Nat.pos_of_ne_zero h) one_lt_two

/-- The loop of `round_down_to_power_of_two`: counts how many times
`n >>= 1` runs while `n > 1`. -/
def down_loop (n : Nat) : Nat :=
  if 1 < n then down_loop (n / 2) + 1
  else 0
decreasing_by exact Nat.div_lt_self (by omega) one_lt_two

/-- Embeds `round_up_to_power_of_two` (identical in `src/util.h`
lines 323-333 and `src/unnamed/part_000` lines 357-367).  The parameter is
a 32-bit `unsigned int`, so the embedding first reduces it mod `2^32`; the
`--n` decrement wraps around mod `2^32`; the result `1 << exponent` is
again taken mod `2^32`. -/
def round_up_to_power_of_two (n : Nat) : Nat :=
  (1 <<< up_loop ((n % 2^32 + (2^32 - 1)) % 2^32)) % 2^32

/-- Embeds `round_down_to_power_of_two` (identical in `src/util.h`
lines 335-344 and `src/unnamed/part_000` lines 369-378). -/
def round_down_to_power_of_two (n : Nat) : Nat :=
  (1 <<< down_loop (n % 2^32)) % 2^32

lemma up_loop_two_pow_sub_one (k : Nat) : up_loop (2^k - 1) = k := by
  induction k with
  | zero => simp [up_loop]
  | succ k ih =>
    have h2 : 2^(k+1) = 2 * 2^k := by rw [pow_succ]; ring
    have hpos : (1:Nat) ≤ 2^k := Nat.one_le_two_pow
    have hne : 2^(k+1) - 1 ≠ 0 := by omega
    rw [up_loop, dif_neg hne]
    have hdiv : (2^(k+1) - 1) / 2 = 2^k - 1 := by omega
    rw [hdiv, ih]

/-- C4: calling `round_up_to_power_of_two` with `n = 0` underflows: the
unsigned `--n` wraps `0` to `2^32 - 1`, the loop runs 32 times so
`exponent = 32`, and the returned value `(1 << 32) mod 2^32 = 0` is not a
power of two (so it does not round `0` up to any power of two).  By
contrast `round_down_to_power_of_two 0` never enters its loop (the loop
counter stays `0`) and returns `1`. -/
theorem round_up_to_power_of_two_zero_underflow :
    (0 % 2^32 + (2^32 - 1)) % 2^32 = 2^32 - 1 ∧
    up_loop ((0 % 2^32 + (2^32 - 1)) % 2^32) = 32 ∧
    round_up_to_power_of_two 0 = 0 ∧
    (∀ k : Nat, round_up_to_power_of_two 0 ≠ 2^k) ∧
    down_loop (0 % 2^32) = 0 ∧
    round_down_to_power_of_two 0 = 1 := by
  have hm : (0 % 2^32 + (2^32 - 1)) % 2^32 = 2^32 - 1 := by norm_num
  have hup : up_loop ((0 % 2^32 + (2^32 - 1)) % 2^32) = 32 := by
    rw [hm]
    exact up_loop_two_pow_sub_one 32
  have hval : round_up_to_power_of_two 0 = 0 := by
    rw [round_up_to_power_of_two, hup]
    norm_num [Nat.shiftLeft_eq]
  have hdown : down_loop (0 % 2^32) = 0 := by
    rw [down_loop]
    norm_num
  refine ⟨hm, hup, hval, ?_, hdown, ?_⟩
  · intro k
    rw [hval]
    exact (Nat.two_pow_pos k).ne
  · rw [round_down_to_power_of_two, hdown]
    norm_num [Nat.shiftLeft_eq]

/-- Embeds `get_barycentric` (identical in `src/util.h` lines 357-374 and
`src/unnamed/part_000` lines 427-444).  The real parameter `T` is modelled
by `ℚ`; `T s = std::floor(x); i = (int)s` becomes the integer floor (the
cast of the already-integral `s` truncates to exactly `⌊x⌋`).  The C++
function writes through the references `i` and `f`; the embedding returns
the pair `(i, f)`. -/
def get_barycentric (x : ℚ) (i_low i_high : ℤ) : ℤ × ℚ :=
  if ⌊x⌋ < i_low then (i_low, 0)
  else if ⌊x⌋ > i_high - 2 then (i_high - 2, 1)
  else (⌊x⌋, x - (⌊x⌋ : ℚ))

/-- C8: when `i_low ≤ i_high - 2`, `get_barycentric` produces a cell index
in `[i_low, i_high - 2]` and a fractional offset in `[0, 1]`; the offset is
`x - ⌊x⌋` with index `⌊x⌋` whenever `⌊x⌋` already lies in the unclamped
range, and the offset is `0` (resp. `1`) when the index is clamped at the
low (resp. high) end. -/
theorem get_barycentric_spec (x : ℚ) (i_low i_high : ℤ)
    (h : i_low ≤ i_high - 2) :
    i_low ≤ (get_barycentric x i_low i_high).1 ∧
    (get_barycentric x i_low i_high).1 ≤ i_high - 2 ∧
    0 ≤ (get_barycentric x i_low i_high).2 ∧
    (get_barycentric x i_low i_high).2 ≤ 1 ∧
    (i_low ≤ ⌊x⌋ → ⌊x⌋ ≤ i_high - 2 →
      get_barycentric x i_low i_high = (⌊x⌋, x - ⌊x⌋)) ∧
    (⌊x⌋ < i_low → get_barycentric x i_low i_high = (i_low, 0)) ∧
    (i_high - 2 < ⌊x⌋ → get_barycentric x i_low i_high = (i_high - 2, 1)) := by
  have hfl : (⌊x⌋ : ℚ) ≤ x := Int.floor_le x
  have hfu : x < ⌊x⌋ + 1 := Int.lt_floor_add_one x
  unfold get_barycentric
  split_ifs with h1 h2
  · exact ⟨le_refl _, h, le_refl _, zero_le_one,
      fun hlo _ => absurd h1 (not_lt_of_le hlo),
      fun _ => rfl,
      fun hhi => absurd (h1.trans_le (h.trans hhi.le)) (lt_irrefl _)⟩
  · exact ⟨h, le_refl _, zero_le_one, le_refl _,
      fun _ hhi => absurd h2 (not_lt_of_le hhi),
      fun hlo => absurd hlo h1,
      fun _ => rfl⟩
  · refine ⟨le_of_not_lt h1, le_of_not_lt h2, ?_, ?_,
      fun _ _ => rfl, fun hlo => absurd hlo h1, fun hhi => absurd hhi h2⟩
    · show 0 ≤ x - (⌊x⌋ : ℚ)
      linarith
    · show x - (⌊x⌋ : ℚ) ≤ 1
      linarith

/-- Witness for `get_barycentric_spec` at a concrete input. -/
theorem get_barycentric_spec_witness :
    (0:ℤ) ≤ 10 - 2 ∧ 0 ≤ (get_barycentric (5/2 : ℚ) 0 10).1 := by
  have h := get_barycentric_spec (5/2 : ℚ) 0 10 (by norm_num)
  exact ⟨by norm_num, h.1⟩

/-!
Morton (Z-order) codes.

`morton_xy2d`, `morton_1` and `morton_d2xy` live in
`src/unnamed/part_000` lines 380-414.  All values involved are `u64`
(`uint64_t`), modelled as `Nat` reduced mod `2^64`; the final cast of
`morton_1` to `uint32_t` is a reduction mod `2^32`.  Only the left shifts
can overflow 64 bits, so the embedding takes `% 2^64` after each `<<`.
-/

/-- One line of the bit-spreading pipeline of `morton_xy2d`:
`x = (x | (x << s)) & m;` on `u64` values. -/
def spreadStep (s m v : Nat) : Nat := (v ||| (v <<< s) % 2^64) &&& m

/-- The five bit-spreading lines of `morton_xy2d` applied to one
coordinate (`src/unnamed/part_000` lines 382-386 resp. 388-392). -/
def morton_spread (x : Nat) : Nat :=
  spreadStep 1 0x5555555555555555
    (spreadStep 2 0x3333333333333333
      (spreadStep 4 0x0F0F0F0F0F0F0F0F
        (spreadStep 8 0x00FF00FF00FF00FF
          (spreadStep 16 0x0000FFFF0000FFFF x))))

/-- Embeds `morton_xy2d` (`src/unnamed/part_000` lines 380-395).  The C++
function writes the code through the out-pointer `d`; the embedding
returns it: `*d = x | (y << 1);` after both coordinates were spread. -/
def morton_xy2d (x y : Nat) : Nat :=
  morton_spread (x % 2^64) ||| (morton_spread (y % 2^64) <<< 1) % 2^64

/-- One line of the bit-compacting pipeline of `morton_1`:
`x = (x | (x >> s)) & m;` on `u64` values. -/
def compactStep (s m v : Nat) : Nat := (v ||| v >>> s) &&& m

/-- Embeds `morton_1` (`src/unnamed/part_000` lines 399-408): extracts the
even bits of a 64-bit Morton code into a 32-bit coordinate; the trailing
`% 2^32` is the `(uint32_t)` cast of the return value. -/
def morton_1 (w : Nat) : Nat :=
  (compactStep 16 0x00000000FFFFFFFF
    (compactStep 8 0x0000FFFF0000FFFF
      (compactStep 4 0x00FF00FF00FF00FF
        (compactStep 2 0x0F0F0F0F0F0F0F0F
          (compactStep 1 0x3333333333333333
            ((w % 2^64) &&& 0x5555555555555555)))))) % 2^32

/-- Embeds `morton_d2xy` (`src/unnamed/part_000` lines 410-414):
`x = morton_1(d); y = morton_1(d >> 1);` returned as a pair. -/
def morton_d2xy (d : Nat) : Nat × Nat :=
  (morton_1 (d % 2^64), morton_1 ((d % 2^64) >>> 1))

/-- The invariant tying a pipeline value `v` to the original coordinate
`x`: `v` carries the bits of `x` in chunks of size `c`, at stride `w = 2c`
inside the low 64 bits; bit `j` of `v` is bit `c * (j / w) + j % w` of `x`
when `j % w < c`, and `0` otherwise. -/
def MInv (c w x v : Nat) : Prop :=
  ∀ j : Nat, v.testBit j =
    ((decide (j < 64) && decide (j % w < c)) && x.testBit (c * (j / w) + j % w))

lemma mask1_testBit (j : Nat) :
    (0x5555555555555555 : Nat).testBit j = (decide (j < 64) && decide (j % 2 < 1)) := by
  rcases Nat.lt_or_ge j 64 with h | h
  · have hb : ∀ i, i < 64 → ((0x5555555555555555 : Nat).testBit i = decide (i % 2 < 1)) := by
      decide
    simp [h, hb j h]
  · have hlt : (0x5555555555555555 : Nat) < 2^j :=
      lt_of_lt_of_le (by norm_num) (Nat.pow_le_pow_right (by norm_num) h)
    simp [Nat.testBit_lt_two_pow hlt, Nat.not_lt.2 h]

lemma mask2_testBit (j : Nat) :
    (0x3333333333333333 : Nat).testBit j = (decide (j < 64) && decide (j % 4 < 2)) := by
  rcases Nat.lt_or_ge j 64 with h | h
  · have hb : ∀ i, i < 64 → ((0x3333333333333333 : Nat).testBit i = decide (i % 4 < 2)) := by
      decide
    simp [h, hb j h]
  · have hlt : (0x3333333333333333 : Nat) < 2^j :=
      lt_of_lt_of_le (by norm_num) (Nat.pow_le_pow_right (by norm_num) h)
    simp [Nat.testBit_lt_two_pow hlt, Nat.not_lt.2 h]

lemma mask4_testBit (j : Nat) :
    (0x0F0F0F0F0F0F0F0F : Nat).testBit j = (decide (j < 64) && decide (j % 8 < 4)) := by
  rcases Nat.lt_or_ge j 64 with h | h
  · have hb : ∀ i, i < 64 → ((0x0F0F0F0F0F0F0F0F : Nat).testBit i = decide (i % 8 < 4)) := by
      decide
    simp [h, hb j h]
  · have hlt : (0x0F0F0F0F0F0F0F0F : Nat) < 2^j :=
      lt_of_lt_of_le (by norm_num) (Nat.pow_le_pow_right (by norm_num) h)
    simp [Nat.testBit_lt_two_pow hlt, Nat.not_lt.2 h]

lemma mask8_testBit (j : Nat) :
    (0x00FF00FF00FF00FF : Nat).testBit j = (decide (j < 64) && decide (j % 16 < 8)) := by
  rcases Nat.lt_or_ge j 64 with h | h
  · have hb : ∀ i, i < 64 → ((0x00FF00FF00FF00FF : Nat).testBit i = decide (i % 16 < 8)) := by
      decide
    simp [h, hb j h]
  · have hlt : (0x00FF00FF00FF00FF : Nat) < 2^j :=
      lt_of_lt_of_le (by norm_num) (Nat.pow_le_pow_right (by norm_num) h)
    simp [Nat.testBit_lt_two_pow hlt, Nat.not_lt.2 h]

lemma mask16_testBit (j : Nat) :
    (0x0000FFFF0000FFFF : Nat).testBit j = (decide (j < 64) && decide (j % 32 < 16)) := by
  rcases Nat.lt_or_ge j 64 with h | h
  · have hb : ∀ i, i < 64 → ((0x0000FFFF0000FFFF : Nat).testBit i = decide (i % 32 < 16)) := by
      decide
    simp [h, hb j h]
  · have hlt : (0x0000FFFF0000FFFF : Nat) < 2^j :=
      lt_of_lt_of_le (by norm_num) (Nat.pow_le_pow_right (by norm_num) h)
    simp [Nat.testBit_lt_two_pow hlt, Nat.not_lt.2 h]

lemma mask32_testBit (j : Nat) :
    (0x00000000FFFFFFFF : Nat).testBit j = (decide (j < 64) && decide (j % 64 < 32)) := by
  rcases Nat.lt_or_ge j 64 with h | h
  · have hb : ∀ i, i < 64 → ((0x00000000FFFFFFFF : Nat).testBit i = decide (i % 64 < 32)) := by
      decide
    simp [h, hb j h]
  · have hlt : (0x00000000FFFFFFFF : Nat) < 2^j :=
      lt_of_lt_of_le (by norm_num) (Nat.pow_le_pow_right (by norm_num) h)
    simp [Nat.testBit_lt_two_pow hlt, Nat.not_lt.2 h]

lemma minv_base {x : Nat} (hx : x < 2^32) : MInv 32 64 x x := by
  intro j
  rcases (by omega : j < 32 ∨ (32 ≤ j ∧ j < 64) ∨ 64 ≤ j) with h | ⟨h1, h2⟩ | h
  · simp [show j < 64 by omega, show j % 64 < 32 by omega,
      show 32 * (j / 64) + j % 64 = j by omega]
  · have hb : x.testBit j = false :=
      Nat.testBit_lt_two_pow (lt_of_lt_of_le hx (Nat.pow_le_pow_right (by norm_num) h1))
    simp [hb, show ¬ (j % 64 < 32) by omega]
  · have hb : x.testBit j = false :=
      Nat.testBit_lt_two_pow (lt_of_lt_of_le hx (Nat.pow_le_pow_right (by norm_num) (by omega)))
    simp [hb, show ¬ (j < 64) by omega]

lemma minv_extract {x v : Nat} (hx : x < 2^32) (hv : MInv 32 64 x v) : v = x := by
  apply Nat.eq_of_testBit_eq
  intro j
  rw [hv j]
  rcases (by omega : j < 32 ∨ 32 ≤ j) with h | h
  · simp [show j < 64 by omega, show j % 64 < 32 by omega,
      show 32 * (j / 64) + j % 64 = j by omega]
  · have hb : x.testBit j = false :=
      Nat.testBit_lt_two_pow (lt_of_lt_of_le hx (Nat.pow_le_pow_right (by norm_num) h))
    rcases Nat.lt_or_ge j 64 with h64 | h64
    · simp [hb, show ¬ (j % 64 < 32) by omega]
    · simp [hb, show ¬ (j < 64) by omega]

lemma spread_step16 {x v : Nat} (hv : MInv 32 64 x v) :
    MInv 16 32 x (spreadStep 16 0x0000FFFF0000FFFF v) := by
  intro j
  unfold spreadStep
  rw [Nat.testBit_and, Nat.testBit_or, Nat.testBit_mod_two_pow, Nat.testBit_shiftLeft,
    mask16_testBit j, hv j, hv (j - 16)]
  rcases (by omega :
      64 ≤ j ∨
      (j < 64 ∧ ¬ (j % 32 < 16)) ∨
      (j < 64 ∧ j % 64 < 16) ∨
      (j < 64 ∧ 32 ≤ j % 64 ∧ j % 64 < 48)) with h | ⟨h64, hm⟩ | ⟨h64, hr⟩ | ⟨h64, hr1, hr2⟩
  · simp [show ¬ (j < 64) by omega]
  · simp [h64, hm]
  · rcases Nat.lt_or_ge j 16 with hj | hj
    · simp [h64, show j % 64 < 32 by omega, show j % 32 < 16 by omega,
        show ¬ (j ≥ 16) by omega,
        show 32 * (j / 64) + j % 64 = 16 * (j / 32) + j % 32 by omega]
    · simp [h64, show j % 64 < 32 by omega, show j % 32 < 16 by omega,
        show ¬ ((j - 16) % 64 < 32) by omega,
        show 32 * (j / 64) + j % 64 = 16 * (j / 32) + j % 32 by omega]
  · simp [h64, show ¬ (j % 64 < 32) by omega, show j % 32 < 16 by omega,
      show j ≥ 16 by omega, show j - 16 < 64 by omega,
      show (j - 16) % 64 < 32 by omega,
      show 32 * ((j - 16) / 64) + (j - 16) % 64 = 16 * (j / 32) + j % 32 by omega]

lemma spread_step8 {x v : Nat} (hv : MInv 16 32 x v) :
    MInv 8 16 x (spreadStep 8 0x00FF00FF00FF00FF v) := by
  intro j
  unfold spreadStep
  rw [Nat.testBit_and, Nat.testBit_or, Nat.testBit_mod_two_pow, Nat.testBit_shiftLeft,
    mask8_testBit j, hv j, hv (j - 8)]
  rcases (by omega :
      64 ≤ j ∨
      (j < 64 ∧ ¬ (j % 16 < 8)) ∨
      (j < 64 ∧ j % 32 < 8) ∨
      (j < 64 ∧ 16 ≤ j % 32 ∧ j % 32 < 24)) with h | ⟨h64, hm⟩ | ⟨h64, hr⟩ | ⟨h64, hr1, hr2⟩
  · simp [show ¬ (j < 64) by omega]
  · simp [h64, hm]
  · rcases Nat.lt_or_ge j 8 with hj | hj
    · simp [h64, show j % 32 < 16 by omega, show j % 16 < 8 by omega,
        show ¬ (j ≥ 8) by omega,
        show 16 * (j / 32) + j % 32 = 8 * (j / 16) + j % 16 by omega]
    · simp [h64, show j % 32 < 16 by omega, show j % 16 < 8 by omega,
        show ¬ ((j - 8) % 32 < 16) by omega,
        show 16 * (j / 32) + j % 32 = 8 * (j / 16) + j % 16 by omega]
  · simp [h64, show ¬ (j % 32 < 16) by omega, show j % 16 < 8 by omega,
      show j ≥ 8 by omega, show j - 8 < 64 by omega,
      show (j - 8) % 32 < 16 by omega,
      show 16 * ((j - 8) / 32) + (j - 8) % 32 = 8 * (j / 16) + j % 16 by omega]

lemma spread_step4 {x v : Nat} (hv : MInv 8 16 x v) :
    MInv 4 8 x (spreadStep 4 0x0F0F0F0F0F0F0F0F v) := by
  intro j
  unfold spreadStep
  rw [Nat.testBit_and, Nat.testBit_or, Nat.testBit_mod_two_pow, Nat.testBit_shiftLeft,
    mask4_testBit j, hv j, hv (j - 4)]
  rcases (by omega :
      64 ≤ j ∨
      (j < 64 ∧ ¬ (j % 8 < 4)) ∨
      (j < 64 ∧ j % 16 < 4) ∨
      (j < 64 ∧ 8 ≤ j % 16 ∧ j % 16 < 12)) with h | ⟨h64, hm⟩ | ⟨h64, hr⟩ | ⟨h64, hr1, hr2⟩
  · simp [show ¬ (j < 64) by omega]
  · simp [h64, hm]
  · rcases Nat.lt_or_ge j 4 with hj | hj
    · simp [h64, show j % 16 < 8 by omega, show j % 8 < 4 by omega,
        show ¬ (j ≥ 4) by omega,
        show 8 * (j / 16) + j % 16 = 4 * (j / 8) + j % 8 by omega]
    · simp [h64, show j % 16 < 8 by omega, show j % 8 < 4 by omega,
        show ¬ ((j - 4) % 16 < 8) by omega,
        show 8 * (j / 16) + j % 16 = 4 * (j / 8) + j % 8 by omega]
  · simp [h64, show ¬ (j % 16 < 8) by omega, show j % 8 < 4 by omega,
      show j ≥ 4 by omega, show j - 4 < 64 by omega,
      show (j - 4) % 16 < 8 by omega,
      show 8 * ((j - 4) / 16) + (j - 4) % 16 = 4 * (j / 8) + j % 8 by omega]

lemma spread_step2 {x v : Nat} (hv : MInv 4 8 x v) :
    MInv 2 4 x (spreadStep 2 0x3333333333333333 v) := by
  intro j
  unfold spreadStep
  rw [Nat.testBit_and, Nat.testBit_or, Nat.testBit_mod_two_pow, Nat.testBit_shiftLeft,
    mask2_testBit j, hv j, hv (j - 2)]
  rcases (by omega :
      64 ≤ j ∨
      (j < 64 ∧ ¬ (j % 4 < 2)) ∨
      (j < 64 ∧ j % 8 < 2) ∨
      (j < 64 ∧ 4 ≤ j % 8 ∧ j % 8 < 6)) with h | ⟨h64, hm⟩ | ⟨h64, hr⟩ | ⟨h64, hr1, hr2⟩
  · simp [show ¬ (j < 64) by omega]
  · simp [h64, hm]
  · rcases Nat.lt_or_ge j 2 with hj | hj
    · simp [h64, show j % 8 < 4 by omega, show j % 4 < 2 by omega,
        show ¬ (j ≥ 2) by omega,
        show 4 * (j / 8) + j % 8 = 2 * (j / 4) + j % 4 by omega]
    · simp [h64, show j % 8 < 4 by omega, show j % 4 < 2 by omega,
        show ¬ ((j - 2) % 8 < 4) by omega,
        show 4 * (j / 8) + j % 8 = 2 * (j / 4) + j % 4 by omega]
  · simp [h64, show ¬ (j % 8 < 4) by omega, show j % 4 < 2 by omega,
      show j ≥ 2 by omega, show j - 2 < 64 by omega,
      show (j - 2) % 8 < 4 by omega,
      show 4 * ((j - 2) / 8) + (j - 2) % 8 = 2 * (j / 4) + j % 4 by omega]

lemma spread_step1 {x v : Nat} (hv : MInv 2 4 x v) :
    MInv 1 2 x (spreadStep 1 0x5555555555555555 v) := by
  intro j
  unfold spreadStep
  rw [Nat.testBit_and, Nat.testBit_or, Nat.testBit_mod_two_pow, Nat.testBit_shiftLeft,
    mask1_testBit j, hv j, hv (j - 1)]
  rcases (by omega :
      64 ≤ j ∨
      (j < 64 ∧ ¬ (j % 2 < 1)) ∨
      (j < 64 ∧ j % 4 < 1) ∨
      (j < 64 ∧ 2 ≤ j % 4 ∧ j % 4 < 3)) with h | ⟨h64, hm⟩ | ⟨h64, hr⟩ | ⟨h64, hr1, hr2⟩
  · simp [show ¬ (j < 64) by omega]
  · simp [h64, hm]
  · rcases Nat.lt_or_ge j 1 with hj | hj
    · simp [h64, show j % 4 < 2 by omega, show j % 2 < 1 by omega,
        show ¬ (j ≥ 1) by omega,
        show 2 * (j / 4) + j % 4 = 1 * (j / 2) + j % 2 by omega]
    · simp [h64, show j % 4 < 2 by omega, show j % 2 < 1 by omega,
        show ¬ ((j - 1) % 4 < 2) by omega,
        show 2 * (j / 4) + j % 4 = 1 * (j / 2) + j % 2 by omega]
  · simp [h64, show ¬ (j % 4 < 2) by omega, show j % 2 < 1 by omega,
      show j ≥ 1 by omega, show j - 1 < 64 by omega,
      show (j - 1) % 4 < 2 by omega,
      show 2 * ((j - 1) / 4) + (j - 1) % 4 = 1 * (j / 2) + j % 2 by omega]

lemma morton_spread_inv {x : Nat} (hx : x < 2^32) : MInv 1 2 x (morton_spread x) := by
  unfold morton_spread
  exact spread_step1 (spread_step2 (spread_step4 (spread_step8 (spread_step16 (minv_base hx)))))

lemma compact_step1 {x v : Nat} (hv : MInv 1 2 x v) :
    MInv 2 4 x (compactStep 1 0x3333333333333333 v) := by
  intro j
  unfold compactStep
  rw [Nat.testBit_and, Nat.testBit_or, Nat.testBit_shiftRight, mask2_testBit j,
    hv j, hv (1 + j)]
  rcases (by omega :
      64 ≤ j ∨
      (j < 64 ∧ ¬ (j % 4 < 2)) ∨
      (j < 64 ∧ j % 4 < 1) ∨
      (j < 64 ∧ 1 ≤ j % 4 ∧ j % 4 < 2)) with h | ⟨h64, hm⟩ | ⟨h64, hr⟩ | ⟨h64, hr1, hr2⟩
  · simp [show ¬ (j < 64) by omega]
  · simp [h64, hm]
  · simp [h64, show j % 2 < 1 by omega, show ¬ ((1 + j) % 2 < 1) by omega,
      show j % 4 < 2 by omega,
      show j / 2 + j % 2 = 2 * (j / 4) + j % 4 by omega]
  · simp [h64, show ¬ (j % 2 < 1) by omega, show (1 + j) % 2 < 1 by omega,
      show 1 + j < 64 by omega, show j % 4 < 2 by omega,
      show (1 + j) / 2 + (1 + j) % 2 = 2 * (j / 4) + j % 4 by omega]

lemma compact_step2 {x v : Nat} (hv : MInv 2 4 x v) :
    MInv 4 8 x (compactStep 2 0x0F0F0F0F0F0F0F0F v) := by
  intro j
  unfold compactStep
  rw [Nat.testBit_and, Nat.testBit_or, Nat.testBit_shiftRight, mask4_testBit j,
    hv j, hv (2 + j)]
  rcases (by omega :
      64 ≤ j ∨
      (j < 64 ∧ ¬ (j % 8 < 4)) ∨
      (j < 64 ∧ j % 8 < 2) ∨
      (j < 64 ∧ 2 ≤ j % 8 ∧ j % 8 < 4)) with h | ⟨h64, hm⟩ | ⟨h64, hr⟩ | ⟨h64, hr1, hr2⟩
  · simp [show ¬ (j < 64) by omega]
  · simp [h64, hm]
  · simp [h64, show j % 4 < 2 by omega, show ¬ ((2 + j) % 4 < 2) by omega,
      show j % 8 < 4 by omega,
      show 2 * (j / 4) + j % 4 = 4 * (j / 8) + j % 8 by omega]
  · simp [h64, show ¬ (j % 4 < 2) by omega, show (2 + j) % 4 < 2 by omega,
      show 2 + j < 64 by omega, show j % 8 < 4 by omega,
      show 2 * ((2 + j) / 4) + (2 + j) % 4 = 4 * (j / 8) + j % 8 by omega]

lemma compact_step4 {x v : Nat} (hv : MInv 4 8 x v) :
    MInv 8 16 x (compactStep 4 0x00FF00FF00FF00FF v) := by
  intro j
  unfold compactStep
  rw [Nat.testBit_and, Nat.testBit_or, Nat.testBit_shiftRight, mask8_testBit j,
    hv j, hv (4 + j)]
  rcases (by omega :
      64 ≤ j ∨
      (j < 64 ∧ ¬ (j % 16 < 8)) ∨
      (j < 64 ∧ j % 16 < 4) ∨
      (j < 64 ∧ 4 ≤ j % 16 ∧ j % 16 < 8)) with h | ⟨h64, hm⟩ | ⟨h64, hr⟩ | ⟨h64, hr1, hr2⟩
  · simp [show ¬ (j < 64) by omega]
  · simp [h64, hm]
  · simp [h64, show j % 8 < 4 by omega, show ¬ ((4 + j) % 8 < 4) by omega,
      show j % 16 < 8 by omega,
      show 4 * (j / 8) + j % 8 = 8 * (j / 16) + j % 16 by omega]
  · simp [h64, show ¬ (j % 8 < 4) by omega, show (4 + j) % 8 < 4 by omega,
      show 4 + j < 64 by omega, show j % 16 < 8 by omega,
      show 4 * ((4 + j) / 8) + (4 + j) % 8 = 8 * (j / 16) + j % 16 by omega]

lemma compact_step8 {x v : Nat} (hv : MInv 8 16 x v) :
    MInv 16 32 x (compactStep 8 0x0000FFFF0000FFFF v) := by
  intro j
  unfold compactStep
  rw [Nat.testBit_and, Nat.testBit_or, Nat.testBit_shiftRight, mask16_testBit j,
    hv j, hv (8 + j)]
  rcases (by omega :
      64 ≤ j ∨
      (j < 64 ∧ ¬ (j % 32 < 16)) ∨
      (j < 64 ∧ j % 32 < 8) ∨
      (j < 64 ∧ 8 ≤ j % 32 ∧ j % 32 < 16)) with h | ⟨h64, hm⟩ | ⟨h64, hr⟩ | ⟨h64, hr1, hr2⟩
  · simp [show ¬ (j < 64) by omega]
  · simp [h64, hm]
  · simp [h64, show j % 16 < 8 by omega, show ¬ ((8 + j) % 16 < 8) by omega,
      show j % 32 < 16 by omega,
      show 8 * (j / 16) + j % 16 = 16 * (j / 32) + j % 32 by omega]
  · simp [h64, show ¬ (j % 16 < 8) by omega, show (8 + j) % 16 < 8 by omega,
      show 8 + j < 64 by omega, show j % 32 < 16 by omega,
      show 8 * ((8 + j) / 16) + (8 + j) % 16 = 16 * (j / 32) + j % 32 by omega]

lemma compact_step16 {x v : Nat} (hv : MInv 16 32 x v) :
    MInv 32 64 x (compactStep 16 0x00000000FFFFFFFF v) := by
  intro j
  unfold compactStep
  rw [Nat.testBit_and, Nat.testBit_or, Nat.testBit_shiftRight, mask32_testBit j,
    hv j, hv (16 + j)]
  rcases (by omega :
      64 ≤ j ∨
      (j < 64 ∧ ¬ (j % 64 < 32)) ∨
      (j < 64 ∧ j % 64 < 16) ∨
      (j < 64 ∧ 16 ≤ j % 64 ∧ j % 64 < 32)) with h | ⟨h64, hm⟩ | ⟨h64, hr⟩ | ⟨h64, hr1, hr2⟩
  · simp [show ¬ (j < 64) by omega]
  · simp [h64, hm]
  · simp [h64, show j % 32 < 16 by omega, show ¬ ((16 + j) % 32 < 16) by omega,
      show j % 64 < 32 by omega,
      show 16 * (j / 32) + j % 32 = 32 * (j / 64) + j % 64 by omega]
  · simp [h64, show ¬ (j % 32 < 16) by omega, show (16 + j) % 32 < 16 by omega,
      show 16 + j < 64 by omega, show j % 64 < 32 by omega,
      show 16 * ((16 + j) / 32) + (16 + j) % 32 = 32 * (j / 64) + j % 64 by omega]

/-- If the first masking line of `morton_1` applied to `w` satisfies the
chunk-1 invariant for `x < 2^32`, the whole of `morton_1 w` recovers `x`. -/
lemma morton_1_eq {x w : Nat} (hx : x < 2^32)
    (h : MInv 1 2 x ((w % 2^64) &&& 0x5555555555555555)) : morton_1 w = x := by
  unfold morton_1
  have h32 := compact_step16 (compact_step8 (compact_step4 (compact_step2 (compact_step1 h))))
  rw [minv_extract hx h32, Nat.mod_eq_of_lt hx]

/-- The even bits of the combined code `sx ||| (sy <<< 1)` are exactly the
spread bits of `x`. -/
lemma morton_combine_even {x y sx sy : Nat} (hsx : MInv 1 2 x sx) (hsy : MInv 1 2 y sy) :
    MInv 1 2 x ((((sx ||| (sy <<< 1) % 2^64)) % 2^64) &&& 0x5555555555555555) := by
  intro j
  rw [Nat.testBit_and, Nat.testBit_mod_two_pow, Nat.testBit_or, Nat.testBit_mod_two_pow,
    Nat.testBit_shiftLeft, mask1_testBit j, hsx j, hsy (j - 1)]
  rcases (by omega :
      64 ≤ j ∨
      (j < 64 ∧ ¬ (j % 2 < 1)) ∨
      (j = 0) ∨
      (j < 64 ∧ 1 ≤ j ∧ j % 2 < 1)) with h | ⟨h64, hm⟩ | h | ⟨h64, h1, hm⟩
  · simp [show ¬ (j < 64) by omega]
  · simp [h64, hm]
  · subst h
    simp
  · simp [h64, hm, show ¬ ((j - 1) % 2 < 1) by omega]

/-- The odd bits of the combined code, after the shift `d >> 1`, are
exactly the spread bits of `y`. -/
lemma morton_combine_odd {x y sx sy : Nat} (hsx : MInv 1 2 x sx) (hsy : MInv 1 2 y sy) :
    MInv 1 2 y (((((sx ||| (sy <<< 1) % 2^64)) >>> 1 % 2^64)) &&& 0x5555555555555555) := by
  intro j
  rw [Nat.testBit_and, Nat.testBit_mod_two_pow, Nat.testBit_shiftRight, Nat.testBit_or,
    Nat.testBit_mod_two_pow, Nat.testBit_shiftLeft, mask1_testBit j,
    show 1 + j - 1 = j by omega, hsx (1 + j), hsy j]
  rcases (by omega :
      64 ≤ j ∨
      (j < 64 ∧ ¬ (j % 2 < 1)) ∨
      (j < 64 ∧ j % 2 < 1)) with h | ⟨h64, hm⟩ | ⟨h64, hm⟩
  · simp [show ¬ (j < 64) by omega]
  · simp [h64, hm]
  · simp [h64, hm, show ¬ ((1 + j) % 2 < 1) by omega, show 1 + j < 64 by omega,
      show (1:Nat) ≤ 1 + j by omega]

/-- C1: Morton round-trip: for coordinates `x, y < 2^32`, decoding the
encoded 64-bit Morton code recovers the coordinates exactly:
`morton_d2xy (morton_xy2d x y) = (x, y)`. -/
theorem morton_roundtrip (x y : Nat) (hx : x < 2^32) (hy : y < 2^32) :
    morton_d2xy (morton_xy2d x y) = (x, y) := by
  have hxm : x % 2^64 = x := Nat.mod_eq_of_lt (lt_of_lt_of_le hx (by norm_num))
  have hym : y % 2^64 = y := Nat.mod_eq_of_lt (lt_of_lt_of_le hy (by norm_num))
  have hsx : MInv 1 2 x (morton_spread x) := morton_spread_inv hx
  have hsy : MInv 1 2 y (morton_spread y) := morton_spread_inv hy
  have hd : morton_xy2d x y < 2^64 := by
    have h1 : morton_spread (x % 2^64) < 2^64 := by
      have : morton_spread (x % 2^64) ≤ 0x5555555555555555 := Nat.and_le_right
      omega
    have h2 : (morton_spread (y % 2^64) <<< 1) % 2^64 < 2^64 :=
      Nat.mod_lt _ (by norm_num)
    exact Nat.or_lt_two_pow h1 h2
  unfold morton_d2xy
  rw [Nat.mod_eq_of_lt hd]
  unfold morton_xy2d
  rw [hxm, hym]
  rw [Prod.mk.injEq]
  constructor
  · exact morton_1_eq hx (morton_combine_even hsx hsy)
  · exact morton_1_eq hy (morton_combine_odd hsx hsy)

/-- Witness for `morton_roundtrip` at a concrete input. -/
theorem morton_roundtrip_witness :
    (123456789 : Nat) < 2^32 ∧ (987654321 : Nat) < 2^32 ∧
    morton_d2xy (morton_xy2d 123456789 987654321) = (123456789, 987654321) :=
  ⟨by norm_num, by norm_num,
   morton_roundtrip 123456789 987654321 (by norm_num) (by norm_num)⟩

/-- Witness for `minmax_family_spec` at a concrete input. -/
theorem minmax_family_spec_witness :
    minmax2 (3:ℤ) 1 = (min 3 1, max 3 1) :=
  (minmax_family_spec (3:ℤ) 1 4 1 5 9).1

/-- Witness for `lerp_endpoints` at a concrete input. -/
theorem lerp_endpoints_witness : lerp (2:ℚ) 5 0 = 2 :=
  (lerp_endpoints 2 5).1

/-- Witness for `catmul_rom_spline_endpoints` at a concrete input. -/
theorem catmul_rom_spline_endpoints_witness :
    catmul_rom_spline (0:ℚ) 1 2 3 4 = 2 :=
  (catmul_rom_spline_endpoints 1 2 3 4).1
